import Mathlib

/-!
Verification of the rustplus-ts client core against its specification.

The development shallowly embeds the three core subsystems of the client:

* the token-bucket admission controller (`RustPlusRequestTokens`,
  `consumeTokens`, `replenishTask` — rustplus.ts),
* the request correlation engine (`CorrState`, `getNextSeq`, `sendRequest`,
  `handleMessage` — rustplus.ts),
* the camera frame window, ray-stream decoder and sample-position shuffle
  (`pushFrame`, `rayDecode`, `IndexGenerator`, `shuffleTable` — camera.ts).

JavaScript `number` token balances are modelled as exact rationals (all the
comparisons and clamped additions involved are order-properties that are
insensitive to this idealisation); the 32-bit integer coercions (`|0`,
`>>>`, Int16Array stores) are modelled explicitly on `Nat`/`Int`.
-/

/-! ## Token bucket admission controller (rustplus.ts) -/

/-- Outcome enum of `consumeTokens` (rustplus.ts `ConsumeTokensError`). -/
inductive ConsumeTokensError where
  | NoError
  | Unknown
  | NotEnoughConnectionTokens
  | NotEnoughPlayerIdTokens
  | WaitReplenishTimeout
deriving DecidableEq, Repr

/-- The token ledger (rustplus.ts `RustPlusRequestTokens`).  The JS object
`playerId` is modelled as an association list keyed by the player id. -/
structure RustPlusRequestTokens where
  connection : ℚ
  playerId : List (String × ℚ)
  serverPairing : ℚ
deriving DecidableEq, Repr

def MAX_REQUESTS_PER_IP_ADDRESS : ℚ := 50
def REQUESTS_PER_IP_REPLENISH_RATE : ℚ := 15
def MAX_REQUESTS_PER_PLAYER_ID : ℚ := 25
def REQUESTS_PER_PLAYER_ID_REPLENISH_RATE : ℚ := 3
def MAX_REQUESTS_FOR_SERVER_PAIRING : ℚ := 5
def REQUESTS_FOR_SERVER_PAIRING_REPLENISH_RATE : ℚ := 1/10

/-- Ledger at client construction: every balance at its ceiling, no player
ids known (rustplus.ts constructor). -/
def initialTokens : RustPlusRequestTokens :=
  { connection := MAX_REQUESTS_PER_IP_ADDRESS
    playerId := []
    serverPairing := MAX_REQUESTS_FOR_SERVER_PAIRING }

/-- `if (!(playerId in this.tokens.playerId)) this.tokens.playerId[playerId] = MAX;`
(lazy initialisation at the top of `consumeTokens`). -/
def ensurePlayer (tk : RustPlusRequestTokens) (pid : String) : RustPlusRequestTokens :=
  if (tk.playerId.lookup pid).isSome then tk
  else { tk with playerId := (pid, MAX_REQUESTS_PER_PLAYER_ID) :: tk.playerId }

/-- Balance of a player id in the ledger (0 if absent; callers only use it
after `ensurePlayer`). -/
def playerBal (tk : RustPlusRequestTokens) (pid : String) : ℚ :=
  (tk.playerId.lookup pid).getD 0

/-- Debit the (unique) binding of `pid` by `amt`
(`this.tokens.playerId[playerId] -= tokens;`). -/
def debitPlayer (l : List (String × ℚ)) (pid : String) (amt : ℚ) : List (String × ℚ) :=
  l.map (fun q => if q.1 = pid then (q.1, q.2 - amt) else q)

/-- `consumeTokens` of rustplus.ts, for the non-blocking call path
(`waitForReplenish = false`).  The blocking variant only adds a poll-and-sleep
loop in front of the very same debit, so successful blocking consumptions are
also instances of the success branch below.  Mirrors the source: lazily
initialise the player id, then either debit both scopes (when both balances
suffice) or triage the failure in the source's branch order. -/
def consumeTokens (tk : RustPlusRequestTokens) (pid : String) (tokens : ℚ) :
    RustPlusRequestTokens × ConsumeTokensError :=
  let tk1 := ensurePlayer tk pid
  if tk1.connection ≥ tokens ∧ playerBal tk1 pid ≥ tokens then
    ({ tk1 with connection := tk1.connection - tokens
                playerId := debitPlayer tk1.playerId pid tokens },
     ConsumeTokensError.NoError)
  else if tk1.connection ≥ tokens then
    (tk1, ConsumeTokensError.NotEnoughConnectionTokens)
  else if playerBal tk1 pid ≥ tokens then
    (tk1, ConsumeTokensError.NotEnoughPlayerIdTokens)
  else
    (tk1, ConsumeTokensError.Unknown)

/-- `replenishConnectionTokens` of rustplus.ts. -/
def replenishConnectionTokens (tk : RustPlusRequestTokens) : RustPlusRequestTokens :=
  if tk.connection < MAX_REQUESTS_PER_IP_ADDRESS then
    { tk with
      connection :=
        min (tk.connection + REQUESTS_PER_IP_REPLENISH_RATE) MAX_REQUESTS_PER_IP_ADDRESS }
  else tk

/-- `replenishPlayerIdTokens` of rustplus.ts (the `for..in` loop over every
known player id). -/
def replenishPlayerIdTokens (tk : RustPlusRequestTokens) : RustPlusRequestTokens :=
  { tk with playerId := tk.playerId.map (fun q =>
      if q.2 < MAX_REQUESTS_PER_PLAYER_ID then
        (q.1, min (q.2 + REQUESTS_PER_PLAYER_ID_REPLENISH_RATE) MAX_REQUESTS_PER_PLAYER_ID)
      else q) }

/-- `replenishServerPairingTokens` of rustplus.ts. -/
def replenishServerPairingTokens (tk : RustPlusRequestTokens) : RustPlusRequestTokens :=
  if tk.serverPairing < MAX_REQUESTS_FOR_SERVER_PAIRING then
    { tk with
      serverPairing :=
        min (tk.serverPairing + REQUESTS_FOR_SERVER_PAIRING_REPLENISH_RATE)
          MAX_REQUESTS_FOR_SERVER_PAIRING }
  else tk

/-- `replenishTask` of rustplus.ts: one 1 Hz tick. -/
def replenishTask (tk : RustPlusRequestTokens) : RustPlusRequestTokens :=
  replenishServerPairingTokens (replenishPlayerIdTokens (replenishConnectionTokens tk))

/-- One event touching the ledger: a `consumeTokens` call or a replenishment
tick. -/
inductive TokenOp where
  | consume (pid : String) (amount : ℚ)
  | replenish
deriving DecidableEq, Repr

def TokenOp.amountOf : TokenOp → ℚ
  | .consume _ amt => amt
  | .replenish => 0

def applyTokenOp (tk : RustPlusRequestTokens) : TokenOp → RustPlusRequestTokens
  | .consume pid amt => (consumeTokens tk pid amt).1
  | .replenish => replenishTask tk

def runTokenOps (tk : RustPlusRequestTokens) (ops : List TokenOp) : RustPlusRequestTokens :=
  ops.foldl applyTokenOp tk

/-- The invariant of the spec: no balance negative, no balance above its
ceiling (50 connection, 25 per player id, 5 pairing). -/
def TokensInv (tk : RustPlusRequestTokens) : Prop :=
  0 ≤ tk.connection ∧ tk.connection ≤ 50 ∧
  (∀ p ∈ tk.playerId, 0 ≤ p.2 ∧ p.2 ≤ 25) ∧
  0 ≤ tk.serverPairing ∧ tk.serverPairing ≤ 5

/-- Auxiliary strengthening: the ledger's player map has no duplicate keys
(it models a JS object). -/
def TokensOk (tk : RustPlusRequestTokens) : Prop :=
  TokensInv tk ∧ (tk.playerId.map Prod.fst).Nodup

/-! ### Lemmas about the ledger -/

theorem map_fst_map_of_fst_eq {α β : Type} (f : α × β → α × β)
    (hf : ∀ q, (f q).1 = q.1) (l : List (α × β)) :
    (l.map f).map Prod.fst = l.map Prod.fst := by
  rw [List.map_map]
  induction l with
  | nil => rfl
  | cons q t ih => simp [ih, hf q]

theorem lookup_eq_of_mem_nodup {l : List (String × ℚ)} {a : String} {b : ℚ}
    (hn : (l.map Prod.fst).Nodup) (hm : (a, b) ∈ l) : l.lookup a = some b := by
  induction l with
  | nil => cases hm
  | cons q t ih =>
    obtain ⟨qa, qb⟩ := q
    rw [List.map_cons] at hn
    rcases List.mem_cons.mp hm with heq | hmt
    · cases heq
      exact List.lookup_cons_self
    · have hne : (a == qa) = false := by
        refine beq_eq_false_iff_ne.mpr ?_
        intro he
        subst he
        exact (List.nodup_cons.mp hn).1
          (by simpa using List.mem_map_of_mem Prod.fst hmt)
      rw [List.lookup_cons, hne]
      exact ih (List.nodup_cons.mp hn).2 hmt

theorem ensurePlayer_ok {tk : RustPlusRequestTokens} {pid : String} (h : TokensOk tk) :
    TokensOk (ensurePlayer tk pid) := by
  obtain ⟨⟨h1, h2, h3, h4, h5⟩, hn⟩ := h
  unfold ensurePlayer
  split
  · exact ⟨⟨h1, h2, h3, h4, h5⟩, hn⟩
  · refine ⟨⟨h1, h2, ?_, h4, h5⟩, ?_⟩
    · intro p hp
      rcases List.mem_cons.mp hp with rfl | hp
      · exact ⟨by norm_num [MAX_REQUESTS_PER_PLAYER_ID],
          by norm_num [MAX_REQUESTS_PER_PLAYER_ID]⟩
      · exact h3 p hp
    · refine List.nodup_cons.mpr ⟨?_, hn⟩
      intro hmem
      rcases List.mem_map.mp hmem with ⟨q, hq, hfst⟩
      next hnot =>
      exact hnot (List.lookup_isSome_iff.mpr ⟨q, hq, by simp [hfst]⟩)

theorem debitPlayer_keys (l : List (String × ℚ)) (pid : String) (amt : ℚ) :
    (debitPlayer l pid amt).map Prod.fst = l.map Prod.fst := by
  refine map_fst_map_of_fst_eq _ (fun q => ?_) l
  by_cases hq : q.1 = pid <;> simp [hq]

theorem consumeTokens_ok {tk : RustPlusRequestTokens} {pid : String} {amt : ℚ}
    (h : TokensOk tk) (ha : 0 ≤ amt) : TokensOk (consumeTokens tk pid amt).1 := by
  have h1 : TokensOk (ensurePlayer tk pid) := ensurePlayer_ok h
  simp only [consumeTokens]
  split
  · next henough =>
    obtain ⟨⟨i1, i2, i3, i4, i5⟩, hn⟩ := h1
    obtain ⟨hc, hp⟩ := henough
    dsimp only
    refine ⟨⟨sub_nonneg.mpr hc, le_trans (sub_le_self _ ha) i2, ?_, i4, i5⟩, ?_⟩
    · intro p hp2
      unfold debitPlayer at hp2
      rcases List.mem_map.mp hp2 with ⟨q, hq, hfq⟩
      by_cases hqpid : q.1 = pid
      · subst hqpid
        have hmem2 : (q.1, q.2) ∈ (ensurePlayer tk q.1).playerId := by simpa using hq
        have hlq := lookup_eq_of_mem_nodup hn hmem2
        have hbal : playerBal (ensurePlayer tk q.1) q.1 = q.2 := by
          rw [playerBal, hlq]; rfl
        subst hfq
        rw [if_pos rfl]
        have hge : amt ≤ q.2 := hbal ▸ hp
        have hb2 := (i3 q hq).2
        exact ⟨by show (0:ℚ) ≤ q.2 - amt; linarith,
               by show q.2 - amt ≤ (25:ℚ); linarith⟩
      · subst hfq
        rw [if_neg hqpid]
        exact i3 q hq
    · simpa [debitPlayer_keys] using hn
  · split
    · exact h1
    · split
      · exact h1
      · exact h1

theorem replenishConnectionTokens_ok {tk : RustPlusRequestTokens} (h : TokensOk tk) :
    TokensOk (replenishConnectionTokens tk) := by
  obtain ⟨⟨h1, h2, h3, h4, h5⟩, hn⟩ := h
  unfold replenishConnectionTokens MAX_REQUESTS_PER_IP_ADDRESS
    REQUESTS_PER_IP_REPLENISH_RATE
  split
  · exact ⟨⟨le_min (by linarith) (by norm_num), min_le_right _ _, h3, h4, h5⟩, hn⟩
  · exact ⟨⟨h1, h2, h3, h4, h5⟩, hn⟩

theorem replenishPlayerIdTokens_ok {tk : RustPlusRequestTokens} (h : TokensOk tk) :
    TokensOk (replenishPlayerIdTokens tk) := by
  obtain ⟨⟨h1, h2, h3, h4, h5⟩, hn⟩ := h
  refine ⟨⟨h1, h2, ?_, h4, h5⟩, ?_⟩
  · intro p hp
    unfold replenishPlayerIdTokens at hp
    rcases List.mem_map.mp hp with ⟨q, hq, hfq⟩
    have hb := h3 q hq
    by_cases hlt : q.2 < MAX_REQUESTS_PER_PLAYER_ID
    · subst hfq
      rw [if_pos hlt]
      unfold MAX_REQUESTS_PER_PLAYER_ID REQUESTS_PER_PLAYER_ID_REPLENISH_RATE at *
      exact ⟨le_min (by linarith [hb.1]) (by norm_num), min_le_right _ _⟩
    · subst hfq
      rw [if_neg hlt]
      exact hb
  · show ((tk.playerId.map _).map Prod.fst).Nodup
    rw [map_fst_map_of_fst_eq]
    · exact hn
    · intro q
      by_cases hq : q.2 < MAX_REQUESTS_PER_PLAYER_ID <;> simp [hq]

theorem replenishServerPairingTokens_ok {tk : RustPlusRequestTokens} (h : TokensOk tk) :
    TokensOk (replenishServerPairingTokens tk) := by
  obtain ⟨⟨h1, h2, h3, h4, h5⟩, hn⟩ := h
  unfold replenishServerPairingTokens MAX_REQUESTS_FOR_SERVER_PAIRING
    REQUESTS_FOR_SERVER_PAIRING_REPLENISH_RATE
  split
  · exact ⟨⟨h1, h2, h3, le_min (by linarith) (by norm_num), min_le_right _ _⟩, hn⟩
  · exact ⟨⟨h1, h2, h3, h4, h5⟩, hn⟩

theorem replenishTask_ok {tk : RustPlusRequestTokens} (h : TokensOk tk) :
    TokensOk (replenishTask tk) :=
  replenishServerPairingTokens_ok (replenishPlayerIdTokens_ok (replenishConnectionTokens_ok h))

theorem runTokenOps_ok {tk : RustPlusRequestTokens} {ops : List TokenOp}
    (h : TokensOk tk) (hnn : ∀ op ∈ ops, 0 ≤ op.amountOf) :
    TokensOk (runTokenOps tk ops) := by
  induction ops generalizing tk with
  | nil => exact h
  | cons op rest ih =>
    have hstep : TokensOk (applyTokenOp tk op) := by
      cases op with
      | consume pid amt => exact consumeTokens_ok h (by simpa using hnn _ (List.mem_cons_self _ _))
      | replenish => exact replenishTask_ok h
    exact ih hstep (fun o ho => hnn o (List.mem_cons_of_mem _ ho))

theorem initialTokens_ok : TokensOk initialTokens := by
  refine ⟨⟨?_, ?_, ?_, ?_, ?_⟩, ?_⟩ <;>
    norm_num [initialTokens, MAX_REQUESTS_PER_IP_ADDRESS, MAX_REQUESTS_FOR_SERVER_PAIRING]

/-! ### Claim C1 and C5 theorems -/

/-- C1, counterexample: with the connection balance at 50 (sufficient for
amount 1) and the caller identity balance at 0 (insufficient), the
non-blocking `consumeTokens` reports `NotEnoughConnectionTokens`, not the
identity-insufficiency variant; and with both balances at 0 it reports
`Unknown`, again not the identity-insufficiency variant. -/
theorem consumeTokens_triage_cex :
    (consumeTokens ⟨50, [("p", 0)], 5⟩ "p" 1).2 =
      ConsumeTokensError.NotEnoughConnectionTokens ∧
    (consumeTokens ⟨50, [("p", 0)], 5⟩ "p" 1).2 ≠
      ConsumeTokensError.NotEnoughPlayerIdTokens ∧
    (consumeTokens ⟨0, [("p", 0)], 5⟩ "p" 1).2 = ConsumeTokensError.Unknown ∧
    (consumeTokens ⟨0, [("p", 0)], 5⟩ "p" 1).2 ≠
      ConsumeTokensError.NotEnoughPlayerIdTokens := by
  decide

/-- C1 (amended): in non-blocking mode, after lazy initialisation of the
identity balance, a call where the connection balance suffices but the
identity balance is short fails immediately with
`NotEnoughConnectionTokens`; one where the connection balance is short but
the identity balance suffices fails with `NotEnoughPlayerIdTokens`; and one
where both are short fails with `Unknown`. -/
theorem consumeTokens_nonblocking_triage (tk : RustPlusRequestTokens) (pid : String)
    (amt : ℚ) :
    ((ensurePlayer tk pid).connection ≥ amt → playerBal (ensurePlayer tk pid) pid < amt →
      (consumeTokens tk pid amt).2 = ConsumeTokensError.NotEnoughConnectionTokens) ∧
    ((ensurePlayer tk pid).connection < amt → playerBal (ensurePlayer tk pid) pid ≥ amt →
      (consumeTokens tk pid amt).2 = ConsumeTokensError.NotEnoughPlayerIdTokens) ∧
    ((ensurePlayer tk pid).connection < amt → playerBal (ensurePlayer tk pid) pid < amt →
      (consumeTokens tk pid amt).2 = ConsumeTokensError.Unknown) := by
  refine ⟨fun hc hp => ?_, fun hc hp => ?_, fun hc hp => ?_⟩ <;>
    simp only [consumeTokens]
  · rw [if_neg (fun hand => absurd hand.2 (not_le.mpr hp)), if_pos hc]
  · rw [if_neg (fun hand => absurd hand.1 (not_le.mpr hc)),
      if_neg (not_le.mpr hc), if_pos hp]
  · rw [if_neg (fun hand => absurd hand.1 (not_le.mpr hc)),
      if_neg (not_le.mpr hc), if_neg (not_le.mpr hp)]

/-- Witness for C1 (amended): each of the three triage branches evaluated at
a concrete ledger. -/
theorem consumeTokens_nonblocking_triage_w :
    (consumeTokens ⟨50, [("p", 0)], 5⟩ "p" 1).2 =
      ConsumeTokensError.NotEnoughConnectionTokens ∧
    (consumeTokens ⟨0, [("p", 25)], 5⟩ "p" 1).2 =
      ConsumeTokensError.NotEnoughPlayerIdTokens ∧
    (consumeTokens ⟨0, [("p", 0)], 5⟩ "p" 1).2 = ConsumeTokensError.Unknown :=
  ⟨(consumeTokens_nonblocking_triage ⟨50, [("p", 0)], 5⟩ "p" 1).1
      (by decide) (by decide),
   (consumeTokens_nonblocking_triage ⟨0, [("p", 25)], 5⟩ "p" 1).2.1
      (by decide) (by decide),
   (consumeTokens_nonblocking_triage ⟨0, [("p", 0)], 5⟩ "p" 1).2.2
      (by decide) (by decide)⟩

/-- C5: starting from the construction-time ledger, for every interleaving of
`consumeTokens` calls (with nonnegative requested amounts, as all the API
token costs are) and 1 Hz replenishment ticks, no balance ever goes negative
and no balance ever exceeds its ceiling (50 connection, 25 per identity,
5 pairing).  Debits only happen when both balances suffice, so the
running-balance side condition of the claim is automatic. -/
theorem token_balances_invariant (ops : List TokenOp)
    (hnn : ∀ op ∈ ops, 0 ≤ op.amountOf) :
    TokensInv (runTokenOps initialTokens ops) :=
  (runTokenOps_ok initialTokens_ok hnn).1

/-- Witness for C5: a concrete interleaving of consumptions (including one
that fails for insufficient balance) and replenishment ticks. -/
theorem token_balances_invariant_w :
    TokensInv (runTokenOps initialTokens
      [TokenOp.consume "a" 1, TokenOp.replenish, TokenOp.consume "b" 26,
       TokenOp.consume "a" 24, TokenOp.replenish]) :=
  token_balances_invariant _ (by decide)

/-! ## Request correlation engine (rustplus.ts) -/

/-- A pending completion handler.  Only the control-flow-relevant behaviour
of a callback matters here: whether invoking it throws.  `true` models a
callback that throws when called. -/
def Cb := Bool
deriving instance DecidableEq, Repr for Cb

/-- Correlation state of a `RustPlus` instance: the last-used sequence
number `seq` and the sparse array `seqCallbacks` (modelled as an association
list from sequence number to callback; a JS array has at most one slot per
index, which registration below maintains). -/
structure CorrState where
  seq : Nat
  seqCallbacks : List (Nat × Cb)
deriving DecidableEq, Repr

/-- Correlation state at construction (`seq = 0`, no callbacks). -/
def initCorrState : CorrState := ⟨0, []⟩

/-- The indices with a registered callback. -/
def pendingKeys (st : CorrState) : List Nat := st.seqCallbacks.map Prod.fst

/-- Linear probe of `getNextSeq`: `while (this.seqCallbacks[nextSeq]) nextSeq++;`.
The fuel argument only bounds the recursion; `nextFree_spec` shows the fuel
used by `getNextSeq` is never exhausted. -/
def nextFree (ks : List Nat) : Nat → Nat → Nat
  | 0, n => n
  | fuel + 1, n => if n ∈ ks then nextFree ks fuel (n + 1) else n

/-- `getNextSeq` of rustplus.ts: start from `seq + 1`, probe forward to the
first index with no registered callback, record and return it. -/
def getNextSeq (st : CorrState) : Nat × CorrState :=
  let n := nextFree (pendingKeys st) (st.seqCallbacks.length + 1) (st.seq + 1)
  (n, { st with seq := n })

/-- `this.seqCallbacks[seq] = callback;` — array-slot assignment (replaces
any previous binding of that index). -/
def registerCb (st : CorrState) (s : Nat) (cb : Cb) : CorrState :=
  { st with seqCallbacks := (s, cb) :: st.seqCallbacks.filter (fun q => q.1 ≠ s) }

/-- `delete this.seqCallbacks[seq];`. -/
def eraseCb (st : CorrState) (s : Nat) : CorrState :=
  { st with seqCallbacks := st.seqCallbacks.filter (fun q => q.1 ≠ s) }

/-- The errors `sendRequest` can return, in source order. -/
inductive SendErr where
  | wsNotOpen
  | invalidAppRequest
  | toBinaryError
  | wsSendError
deriving DecidableEq, Repr

/-- `sendRequest` of rustplus.ts.  The external effects are abstracted by
four flags: `wsOpen` (the WebSocket is present and open), `valid` (the
assembled AppRequest passes `isValidAppRequest`), `encOk` (`AppRequest.toBinary`
does not throw), `sendOk` (`ws.send` does not throw).  Returns the new state,
the synchronously returned error (if any), and the chosen sequence number
(none when the function returns before choosing one). -/
def sendRequest (st : CorrState) (wsOpen : Bool) (cb : Cb) (seqArg : Option Nat)
    (valid encOk sendOk : Bool) : CorrState × Option SendErr × Option Nat :=
  if !wsOpen then (st, some SendErr.wsNotOpen, none)
  else
    let p : Nat × CorrState :=
      match seqArg with
      | some s => (s, st)
      | none => getNextSeq st
    let s := p.1
    let st1 := registerCb p.2 s cb
    if !valid then (eraseCb st1 s, some SendErr.invalidAppRequest, some s)
    else if !encOk then (eraseCb st1 s, some SendErr.toBinaryError, some s)
    else if !sendOk then (eraseCb st1 s, some SendErr.wsSendError, some s)
    else (st1, none, some s)

/-- Outcome of feeding one incoming message through the `ws.on('message')`
handler. -/
structure DispatchOut where
  state : CorrState
  invoked : Bool
  handled : Bool
  errorEmitted : Bool
deriving DecidableEq, Repr

/-- The `ws.on('message', ...)` handler of `connect` in rustplus.ts,
restricted to its pending-callback dispatch: `resp?` is the sequence number
carried by `appMessage.response` (or `none` when the message has no
response).  When a matching callback exists it is invoked (inside
`try`/`catch`); `handled` is set only if it does not throw; a throwing
callback is reported through the `'error'` emission (`errorEmitted`); in
both cases the `finally` block deletes the entry. -/
def handleMessage (st : CorrState) (resp? : Option Nat) : DispatchOut :=
  match resp? with
  | none => ⟨st, false, false, false⟩
  | some s =>
    match st.seqCallbacks.lookup s with
    | none => ⟨st, false, false, false⟩
    | some throws => ⟨eraseCb st s, true, !throws, throws⟩

/-- The timeout path of `sendRequestAsync`: when the timer fires first, the
entry is deleted (`delete this.seqCallbacks[seq]`). -/
def timeoutFires (st : CorrState) (s : Nat) : CorrState := eraseCb st s

/-! ### Lemmas about the correlation engine -/

theorem filterKeyCard_succ_of_mem {ks : List Nat} {n : Nat} (h : n ∈ ks) :
    (ks.toFinset.filter (fun k => n ≤ k)).card
      = (ks.toFinset.filter (fun k => n + 1 ≤ k)).card + 1 := by
  have hins : ks.toFinset.filter (fun k => n ≤ k)
      = insert n (ks.toFinset.filter (fun k => n + 1 ≤ k)) := by
    ext k
    simp only [Finset.mem_filter, Finset.mem_insert, List.mem_toFinset]
    constructor
    · rintro ⟨hk, hle⟩
      by_cases hkn : k = n
      · exact Or.inl hkn
      · exact Or.inr ⟨hk, by omega⟩
    · rintro (hkn | ⟨hk, hle⟩)
      · subst hkn
        exact ⟨h, le_refl _⟩
      · exact ⟨hk, by omega⟩
  rw [hins, Finset.card_insert_of_not_mem]
  intro hmem
  have := (Finset.mem_filter.mp hmem).2
  omega

theorem nextFree_spec (ks : List Nat) :
    ∀ fuel n, (ks.toFinset.filter (fun k => n ≤ k)).card < fuel →
      nextFree ks fuel n ∉ ks := by
  intro fuel
  induction fuel with
  | zero => intro n h; omega
  | succ f ih =>
    intro n h
    unfold nextFree
    split
    · next hmem =>
      refine ih (n + 1) ?_
      rw [filterKeyCard_succ_of_mem hmem] at h
      omega
    · next hnot => exact hnot

theorem getNextSeq_not_pending (st : CorrState) : (getNextSeq st).1 ∉ pendingKeys st := by
  refine nextFree_spec (pendingKeys st) (st.seqCallbacks.length + 1) (st.seq + 1) ?_
  calc ((pendingKeys st).toFinset.filter (fun k => st.seq + 1 ≤ k)).card
      ≤ (pendingKeys st).toFinset.card := Finset.card_filter_le _ _
    _ ≤ (pendingKeys st).length := (pendingKeys st).toFinset_card_le
    _ = st.seqCallbacks.length := List.length_map _ _
    _ < st.seqCallbacks.length + 1 := Nat.lt_succ_self _

/-- A successful `sendRequest` with a freshly allocated sequence number
(all external effects succeed). -/
def sendSuccess (st : CorrState) : CorrState :=
  (sendRequest st true false none true true true).1

/-- `N` requests sent back to back with no responses in between. -/
def iterateSend : Nat → CorrState
  | 0 => initCorrState
  | n + 1 => sendSuccess (iterateSend n)

theorem sendSuccess_callbacks (st : CorrState) :
    (sendSuccess st).seqCallbacks
      = ((getNextSeq st).1, (false : Cb)) :: st.seqCallbacks := by
  have hfresh := getNextSeq_not_pending st
  have hfil : st.seqCallbacks.filter (fun q => q.1 ≠ (getNextSeq st).1)
      = st.seqCallbacks := by
    refine List.filter_eq_self.mpr ?_
    intro q hq
    simp only [decide_eq_true_eq]
    intro he
    exact hfresh (he ▸ List.mem_map_of_mem Prod.fst hq)
  show (sendRequest st true false none true true true).1.seqCallbacks = _
  simp only [sendRequest, Bool.not_true, Bool.false_eq_true, if_false, registerCb]
  exact congrArg (_ :: ·) hfil

theorem iterateSend_spec (N : Nat) :
    (pendingKeys (iterateSend N)).Nodup ∧ (iterateSend N).seqCallbacks.length = N := by
  induction N with
  | zero => exact ⟨List.nodup_nil, rfl⟩
  | succ n ih =>
    obtain ⟨hnd, hlen⟩ := ih
    have hfresh := getNextSeq_not_pending (iterateSend n)
    have hcb := sendSuccess_callbacks (iterateSend n)
    constructor
    · show ((iterateSend (n + 1)).seqCallbacks.map Prod.fst).Nodup
      rw [show iterateSend (n + 1) = sendSuccess (iterateSend n) from rfl, hcb]
      exact List.nodup_cons.mpr ⟨hfresh, hnd⟩
    · rw [show iterateSend (n + 1) = sendSuccess (iterateSend n) from rfl, hcb]
      simp [hlen]

theorem lookup_eraseCb (st : CorrState) (s : Nat) :
    (eraseCb st s).seqCallbacks.lookup s = none := by
  refine List.lookup_eq_none_iff.mpr ?_
  intro p hp
  have hne : p.1 ≠ s := by simpa using List.of_mem_filter hp
  simpa using fun he => hne he.symm

/-! ### Claim C4, C6, C7 theorems -/

/-- C4: a pending entry is resolved at most once.  When an incoming message
carries a response whose sequence number matches a pending entry, the
handler is invoked and the entry removed even when the handler throws (the
throw becomes an `'error'` emission, never `handled`); re-delivering the
same response afterwards invokes nothing; a response whose entry was already
removed (in particular by the `sendRequestAsync` timeout) is not delivered
to any handler and leaves the state unchanged. -/
theorem seqCallback_resolved_once (st : CorrState) (s : Nat) (cb : Cb)
    (hp : st.seqCallbacks.lookup s = some cb) :
    (handleMessage st (some s)).invoked = true ∧
    (handleMessage st (some s)).state.seqCallbacks.lookup s = none ∧
    (handleMessage st (some s)).handled = !cb ∧
    (handleMessage st (some s)).errorEmitted = cb ∧
    (handleMessage (handleMessage st (some s)).state (some s)).invoked = false ∧
    (∀ st2 : CorrState, st2.seqCallbacks.lookup s = none →
      handleMessage st2 (some s) = ⟨st2, false, false, false⟩) ∧
    (handleMessage (timeoutFires st s) (some s)).invoked = false := by
  have hclear : ∀ st2 : CorrState, st2.seqCallbacks.lookup s = none →
      handleMessage st2 (some s) = ⟨st2, false, false, false⟩ := by
    intro st2 h2
    simp [handleMessage, h2]
  refine ⟨?_, ?_, ?_, ?_, ?_, hclear, ?_⟩ <;>
    simp [handleMessage, hp, lookup_eraseCb, timeoutFires]

/-- Witness for C4: one registered callback that throws; dispatch invokes it
once, removes the entry, and a second delivery of the same response invokes
nothing. -/
theorem seqCallback_resolved_once_w :
    (handleMessage ⟨0, [(1, (true : Cb))]⟩ (some 1)).invoked = true ∧
    (handleMessage ⟨0, [(1, (true : Cb))]⟩ (some 1)).errorEmitted = true ∧
    (handleMessage (handleMessage ⟨0, [(1, (true : Cb))]⟩ (some 1)).state
      (some 1)).invoked = false :=
  ⟨(seqCallback_resolved_once ⟨0, [(1, true)]⟩ 1 true (by decide)).1,
   (seqCallback_resolved_once ⟨0, [(1, true)]⟩ 1 true (by decide)).2.2.2.1,
   (seqCallback_resolved_once ⟨0, [(1, true)]⟩ 1 true (by decide)).2.2.2.2.1⟩

/-- C6: `getNextSeq` never returns a sequence number with a registered
callback, and after `N` back-to-back successful sends with no responses,
exactly `N` distinct sequence numbers are registered. -/
theorem getNextSeq_fresh_and_distinct :
    (∀ st : CorrState, (getNextSeq st).1 ∉ pendingKeys st) ∧
    (∀ N : Nat, (pendingKeys (iterateSend N)).Nodup ∧
      (iterateSend N).seqCallbacks.length = N) :=
  ⟨getNextSeq_not_pending, iterateSend_spec⟩

/-- C7: whenever `sendRequest` returns an error — WebSocket not open,
AppRequest validation failure, `toBinary` throw, or `ws.send` throw — no
callback entry remains registered under the chosen sequence number, and
when the failure happens before a sequence number is even chosen (socket
not open) the state is untouched.  The error itself is the synchronous
return value. -/
theorem sendRequest_error_no_orphan (st : CorrState) (wsOpen : Bool) (cb : Cb)
    (seqArg : Option Nat) (valid encOk sendOk : Bool) (e : SendErr)
    (herr : (sendRequest st wsOpen cb seqArg valid encOk sendOk).2.1 = some e) :
    (∀ s, (sendRequest st wsOpen cb seqArg valid encOk sendOk).2.2 = some s →
      (sendRequest st wsOpen cb seqArg valid encOk sendOk).1.seqCallbacks.lookup s
        = none) ∧
    ((sendRequest st wsOpen cb seqArg valid encOk sendOk).2.2 = none →
      (sendRequest st wsOpen cb seqArg valid encOk sendOk).1 = st) := by
  cases wsOpen with
  | false =>
    constructor
    · intro s hs
      simp [sendRequest] at hs
    · intro _
      rfl
  | true =>
    refine ⟨fun s hs => ?_, fun hnone => ?_⟩ <;>
      cases valid <;> cases encOk <;> cases sendOk <;>
        simp_all [sendRequest, lookup_eraseCb]

/-- Witness for C7: a send whose AppRequest validation fails; the callback
registered under the freshly chosen sequence number 1 is deregistered
again. -/
theorem sendRequest_error_no_orphan_w :
    (sendRequest initCorrState true false none false true true).1.seqCallbacks.lookup 1
      = none :=
  (sendRequest_error_no_orphan initCorrState true false none false true true
    SendErr.invalidAppRequest (by decide)).1 1 (by decide)

/-! ## Camera frame window (camera.ts) -/

/-- One `AppCameraRays` broadcast payload: the `sampleOffset` and the raw
ray byte buffer. -/
structure CameraRays where
  sampleOffset : Nat
  rayData : List Nat
deriving DecidableEq, Repr

/-- Camera state relevant to frame accumulation: the subscription flag and
the `cameraRays` window. -/
structure CameraState where
  isSubscribed : Bool
  cameraRays : List CameraRays
deriving DecidableEq, Repr

/-- State right after a successful `subscribe` (camera.ts sets
`isSubscribed = true` and `cameraRays = []`). -/
def subscribedCamera : CameraState := ⟨true, []⟩

/-- The `rustplus.on('message')` handler of the `Camera` constructor
(camera.ts lines 129-144), for a message carrying `broadcast.cameraRays`:
push the frame; if the window now exceeds 10 frames, shift out the oldest
and render once.  Returns the new state and whether a render was emitted. -/
def pushFrame (st : CameraState) (f : CameraRays) : CameraState × Bool :=
  if st.isSubscribed then
    let rays := st.cameraRays ++ [f]
    if rays.length > 10 then ({ st with cameraRays := rays.drop 1 }, true)
    else ({ st with cameraRays := rays }, false)
  else (st, false)

/-- Push a sequence of broadcast frames, counting emitted renders. -/
def pushFrames (st : CameraState) : List CameraRays → CameraState × Nat
  | [] => (st, 0)
  | f :: fs =>
    let r := pushFrame st f
    let rest := pushFrames r.1 fs
    (rest.1, (if r.2 then 1 else 0) + rest.2)

/-! ### Lemmas about the frame window -/

theorem pushFrames_append (st : CameraState) (as bs : List CameraRays) :
    pushFrames st (as ++ bs)
      = ((pushFrames (pushFrames st as).1 bs).1,
         (pushFrames st as).2 + (pushFrames (pushFrames st as).1 bs).2) := by
  induction as generalizing st with
  | nil => simp [pushFrames]
  | cons a t ih =>
    show pushFrames st (a :: (t ++ bs)) = _
    simp only [pushFrames]
    rw [ih, Prod.mk.injEq]
    exact ⟨rfl, by omega⟩

theorem pushFrames_no_render (rays as : List CameraRays)
    (hlen : rays.length + as.length ≤ 10) :
    pushFrames ⟨true, rays⟩ as = (⟨true, rays ++ as⟩, 0) := by
  induction as generalizing rays with
  | nil => simp [pushFrames]
  | cons a t ih =>
    have h9 : rays.length ≤ 9 := by
      simp only [List.length_cons] at hlen
      omega
    have hpush : pushFrame ⟨true, rays⟩ a = (⟨true, rays ++ [a]⟩, false) := by
      simp [pushFrame, h9]
    simp only [pushFrames, hpush]
    rw [ih (rays ++ [a])
      (by simp only [List.length_append, List.length_cons, List.length_nil] at hlen ⊢
          omega)]
    simp

theorem pushFrame_window_le (st : CameraState) (f : CameraRays)
    (h : st.cameraRays.length ≤ 10) : (pushFrame st f).1.cameraRays.length ≤ 10 := by
  simp only [pushFrame]
  split
  · split
    · next hgt =>
      simp only [List.length_drop, List.length_append, List.length_cons,
        List.length_nil]
      omega
    · next hle =>
      simp only [List.length_append, List.length_cons, List.length_nil] at hle ⊢
      omega
  · exact h

theorem pushFrames_window_le (st : CameraState) (fs : List CameraRays)
    (h : st.cameraRays.length ≤ 10) :
    (pushFrames st fs).1.cameraRays.length ≤ 10 := by
  induction fs generalizing st with
  | nil => exact h
  | cons f t ih => exact ih (pushFrame st f).1 (pushFrame_window_le st f h)

/-! ### Claim C2 theorems -/

/-- C2, counterexample: from a freshly subscribed camera, receiving exactly
10 camera-ray broadcast frames triggers no render at all (the handler only
renders once the window exceeds 10 frames, i.e. on the 11th frame). -/
theorem camera_ten_frames_no_render :
    ((List.range 10).map (fun i => CameraRays.mk i [])).length = 10 ∧
    (pushFrames subscribedCamera
      ((List.range 10).map (fun i => CameraRays.mk i []))).2 = 0 := by
  decide

/-- A push onto a full (length-10) window evicts the oldest frame and
renders. -/
theorem pushFrame_full (rays : List CameraRays) (f : CameraRays)
    (h : rays.length = 10) :
    pushFrame ⟨true, rays⟩ f = (⟨true, (rays ++ [f]).drop 1⟩, true) := by
  have hgt : (rays ++ [f]).length > 10 := by simp [h]
  unfold pushFrame
  rw [if_pos rfl]
  dsimp only
  rw [if_pos hgt]

/-- C2 (amended): from a freshly subscribed camera, receiving exactly 11
camera-ray broadcast frames triggers exactly one rendered image, and the
oldest frame is evicted, leaving the 10 most recent frames in the window;
moreover the window never holds more than 10 frames once a frame has been
processed. -/
theorem camera_eleven_frames_one_render :
    (∀ fs : List CameraRays, fs.length = 11 →
      (pushFrames subscribedCamera fs).2 = 1 ∧
      (pushFrames subscribedCamera fs).1.cameraRays = fs.drop 1 ∧
      (pushFrames subscribedCamera fs).1.cameraRays.length = 10) ∧
    (∀ (st : CameraState) (fs : List CameraRays), st.cameraRays.length ≤ 10 →
      (pushFrames st fs).1.cameraRays.length ≤ 10) := by
  constructor
  · intro fs hlen
    have hT : (fs.take 10).length = 10 := by
      rw [List.length_take, hlen]
      decide
    have hdrop : (fs.drop 10).length = 1 := by
      rw [List.length_drop, hlen]
    obtain ⟨f, hf⟩ := List.length_eq_one.mp hdrop
    have hfs : fs = fs.take 10 ++ [f] := by
      conv_lhs => rw [← List.take_append_drop 10 fs]
      rw [hf]
    have h1 : pushFrames subscribedCamera (fs.take 10) = (⟨true, fs.take 10⟩, 0) := by
      have := pushFrames_no_render [] (fs.take 10) (by simp [hT])
      simpa [subscribedCamera] using this
    have h2 : pushFrames ⟨true, fs.take 10⟩ [f]
        = (⟨true, (fs.take 10 ++ [f]).drop 1⟩, 1) := by
      simp only [pushFrames, pushFrame_full _ f hT]
      simp
    have hmain : pushFrames subscribedCamera fs
        = (⟨true, (fs.take 10 ++ [f]).drop 1⟩, 1) := by
      conv_lhs => rw [hfs]
      rw [pushFrames_append, h1, h2]
      simp
    refine ⟨by rw [hmain], ?_, ?_⟩
    · rw [hmain]
      show (fs.take 10 ++ [f]).drop 1 = fs.drop 1
      conv_rhs => rw [hfs]
    · rw [hmain]
      show ((fs.take 10 ++ [f]).drop 1).length = 10
      simp [hT]
  · intro st fs h
    exact pushFrames_window_le st fs h

/-- Witness for C2 (amended): 11 concrete frames produce exactly one render;
the bounded-window part evaluated at a concrete state. -/
theorem camera_eleven_frames_one_render_w :
    (pushFrames subscribedCamera
      ((List.range 11).map (fun i => CameraRays.mk i []))).2 = 1 ∧
    (pushFrames ⟨true, []⟩
      ((List.range 3).map (fun i => CameraRays.mk i []))).1.cameraRays.length ≤ 10 :=
  ⟨(camera_eleven_frames_one_render.1 _ (by decide)).1,
   camera_eleven_frames_one_render.2 ⟨true, []⟩ _ (by decide)⟩

/-! ## Camera ray-stream decoder (camera.ts, `renderCameraFrame` decode loop) -/

/-- One decoded ray sample `(t, r, i)` = (horizontal, vertical, material). -/
abbrev RayTriple := Int × Int × Int

/-- The 64-slot lookback cache, all slots starting at `[0, 0, 0]`. -/
def initLookback : List RayTriple := List.replicate 64 ((0 : Int), (0 : Int), (0 : Int))

/-- Result of running the ray decode loop: the samples in production order,
the final lookback cache, the final value of `dataPointer`, and the list of
indices at which `rayData` was read (`rayData[dataPointer++]`), in read
order. -/
structure DecodeResult where
  samples : List RayTriple
  rayLookback : List RayTriple
  ptr : Nat
  reads : List Nat
deriving DecidableEq, Repr

/-- `rayData[i]` (a JS `Uint8Array` read; reads beyond the end yield
`undefined` in JS — the decoded value is irrelevant to the claims below,
which track the read indices themselves, so out-of-range reads are given
value 0). -/
def readByte (data : List Nat) (i : Nat) : Nat := data.getD i 0

/-- The `while (true)` ray-decoding loop of `renderCameraFrame` (camera.ts
lines 202-271), for one frame.  Loop guard: break when
`dataPointer >= rayData.length - 1` (fewer than 2 bytes remain).  The five
branches are the `0xFF` marker, and the `0b00` (repeat), `0b01` (short 2D
delta), `0b10` (long horizontal delta) and `0b11` (inline baseline) opcodes
selected by the top two bits.  The structural `fuel` argument only bounds
the number of iterations so the definition computes by reduction; every
iteration advances `p`, so `fuel = data.length` can never run out before
the loop guard fails (`decodeGo_fuel_stable` below makes the fuel choice
irrelevant). -/
def decodeGo (data : List Nat) : Nat → Nat → List RayTriple → List RayTriple →
    List Nat → DecodeResult
  | 0, p, cache, samples, reads => ⟨samples, cache, p, reads⟩
  | fuel + 1, p, cache, samples, reads =>
    if p + 1 < data.length then
      let n := readByte data p
      if n = 255 then
        let l := readByte data (p + 1)
        let o := readByte data (p + 2)
        let s := readByte data (p + 3)
        let t : Nat := (l <<< 2) ||| (o >>> 6)
        let r : Nat := 63 &&& o
        let i : Nat := s
        let u : Nat := (3 * (t / 128) + 5 * (r / 16) + 7 * i) &&& 63
        decodeGo data fuel (p + 4) (cache.set u ((t : Int), (r : Int), (i : Int)))
          (samples ++ [((t : Int), (r : Int), (i : Int))])
          (reads ++ [p, p + 1, p + 2, p + 3])
      else
        let c := 192 &&& n
        if c = 0 then
          let y := cache.getD (63 &&& n) (0, 0, 0)
          decodeGo data fuel (p + 1) cache (samples ++ [y]) (reads ++ [p])
        else if c = 64 then
          let v := cache.getD (63 &&& n) (0, 0, 0)
          let g := readByte data (p + 1)
          let t : Int := v.1 + (((g >>> 3 : Nat) : Int) - 15)
          let r : Int := v.2.1 + (((7 &&& g : Nat) : Int) - 3)
          let i : Int := v.2.2
          decodeGo data fuel (p + 2) cache (samples ++ [(t, r, i)])
            (reads ++ [p, p + 1])
        else if c = 128 then
          let C := cache.getD (63 &&& n) (0, 0, 0)
          let t : Int := C.1 + ((readByte data (p + 1) : Int) - 127)
          decodeGo data fuel (p + 2) cache (samples ++ [(t, C.2.1, C.2.2)])
            (reads ++ [p, p + 1])
        else
          let A := readByte data (p + 1)
          let F := readByte data (p + 2)
          let t : Nat := (A <<< 2) ||| (F >>> 6)
          let r : Nat := 63 &&& F
          let i : Nat := 63 &&& n
          let D : Nat := (3 * (t / 128) + 5 * (r / 16) + 7 * i) &&& 63
          decodeGo data fuel (p + 3) (cache.set D ((t : Int), (r : Int), (i : Int)))
            (samples ++ [((t : Int), (r : Int), (i : Int))])
            (reads ++ [p, p + 1, p + 2])
    else
      ⟨samples, cache, p, reads⟩

/-- Decode one frame's ray bytes from the start, with a fresh lookback
cache (as `renderCameraFrame` does per frame). -/
def rayDecode (data : List Nat) : DecodeResult :=
  decodeGo data data.length 0 initLookback [] []

/-! ### Lemmas about the decoder -/

theorem decodeGo_fuel_stable (data : List Nat) (fuel : Nat) :
    ∀ p cache samples reads, data.length ≤ p + fuel →
      decodeGo data (fuel + 1) p cache samples reads
        = decodeGo data fuel p cache samples reads := by
  induction fuel with
  | zero =>
    intro p cache samples reads h
    simp only [decodeGo]
    rw [if_neg (by omega)]
  | succ f ih =>
    intro p cache samples reads h
    by_cases hg : p + 1 < data.length
    · conv_lhs => rw [decodeGo.eq_2]
      conv_rhs => rw [decodeGo.eq_2]
      rw [if_pos hg, if_pos hg]
      dsimp only
      split
      · exact ih _ _ _ _ (by omega)
      · split
        · exact ih _ _ _ _ (by omega)
        · split
          · exact ih _ _ _ _ (by omega)
          · split
            · exact ih _ _ _ _ (by omega)
            · exact ih _ _ _ _ (by omega)
    · conv_lhs => rw [decodeGo.eq_2]
      conv_rhs => rw [decodeGo.eq_2]
      rw [if_neg hg, if_neg hg]

theorem decodeGo_ptr_ge (data : List Nat) (fuel : Nat) :
    ∀ p cache samples reads, p ≤ (decodeGo data fuel p cache samples reads).ptr := by
  induction fuel with
  | zero => intro p _ _ _; exact le_refl p
  | succ f ih =>
    intro p cache samples reads
    simp only [decodeGo]
    split
    · split
      · exact le_trans (by omega) (ih _ _ _ _)
      · split
        · exact le_trans (by omega) (ih _ _ _ _)
        · split
          · exact le_trans (by omega) (ih _ _ _ _)
          · split
            · exact le_trans (by omega) (ih _ _ _ _)
            · exact le_trans (by omega) (ih _ _ _ _)
    · exact le_refl p

theorem decodeGo_ptr_le (data : List Nat) (fuel : Nat) :
    ∀ p cache samples reads, p ≤ data.length + 2 →
      (decodeGo data fuel p cache samples reads).ptr ≤ data.length + 2 := by
  induction fuel with
  | zero => intro p _ _ _ hp; exact hp
  | succ f ih =>
    intro p cache samples reads hp
    simp only [decodeGo]
    split
    · next hg =>
      split
      · exact ih _ _ _ _ (by omega)
      · split
        · exact ih _ _ _ _ (by omega)
        · split
          · exact ih _ _ _ _ (by omega)
          · split
            · exact ih _ _ _ _ (by omega)
            · exact ih _ _ _ _ (by omega)
    · exact hp

theorem range'_chunk (p c m : Nat) (h : p + c ≤ m) :
    List.range' p c ++ List.range' (p + c) (m - (p + c)) = List.range' p (m - p) := by
  rw [List.range'_append_1]
  congr 1
  omega

theorem decodeGo_reads (data : List Nat) (fuel : Nat) :
    ∀ p cache samples reads,
      (decodeGo data fuel p cache samples reads).reads
        = reads ++ List.range' p ((decodeGo data fuel p cache samples reads).ptr - p) := by
  induction fuel with
  | zero =>
    intro p cache samples reads
    show reads = reads ++ List.range' p (p - p)
    rw [Nat.sub_self]
    simp
  | succ f ih =>
    intro p cache samples reads
    simp only [decodeGo]
    split
    · split
      · rw [ih, List.append_assoc]
        congr 1
        rw [show ([p, p + 1, p + 2, p + 3] : List Nat) = List.range' p 4 from rfl]
        exact range'_chunk p 4 _ (decodeGo_ptr_ge data f _ _ _ _)
      · split
        · rw [ih, List.append_assoc]
          congr 1
          rw [show ([p] : List Nat) = List.range' p 1 from rfl]
          exact range'_chunk p 1 _ (decodeGo_ptr_ge data f _ _ _ _)
        · split
          · rw [ih, List.append_assoc]
            congr 1
            rw [show ([p, p + 1] : List Nat) = List.range' p 2 from rfl]
            exact range'_chunk p 2 _ (decodeGo_ptr_ge data f _ _ _ _)
          · split
            · rw [ih, List.append_assoc]
              congr 1
              rw [show ([p, p + 1] : List Nat) = List.range' p 2 from rfl]
              exact range'_chunk p 2 _ (decodeGo_ptr_ge data f _ _ _ _)
            · rw [ih, List.append_assoc]
              congr 1
              rw [show ([p, p + 1, p + 2] : List Nat) = List.range' p 3 from rfl]
              exact range'_chunk p 3 _ (decodeGo_ptr_ge data f _ _ _ _)
    · simp

/-! ### Claim C3 and C9 theorems -/

/-- C3, counterexample: on the 2-byte buffer `[0xFF, 0]` the decoder enters
the marker branch (2 bytes remain, so the loop guard passes) and reads
indices 0, 1, 2 and 3 — indices 2 and 3 are past the end of the buffer. -/
theorem rayDecode_reads_overrun_cex :
    (rayDecode [255, 0]).reads = [0, 1, 2, 3] ∧
    ¬(∀ i ∈ (rayDecode [255, 0]).reads, i < ([255, 0] : List Nat).length) := by
  decide

/-- C3 (amended): decoding processes the buffer strictly left to right (the
read indices are exactly `0, 1, ..., ptr-1` for the final `dataPointer`
value) and stops once fewer than 2 bytes remain; a buffer of length at most
1 is never read.  Reads can pass the end of the buffer only within the final
sample: the marker opcode may read up to 2 indices past the end and the
`0b11` opcode 1 index past the end, so every read index is below
`length + 2`. -/
theorem rayDecode_reads_bounded (data : List Nat) :
    (rayDecode data).reads = List.range (rayDecode data).ptr ∧
    (rayDecode data).ptr ≤ data.length + 2 ∧
    (∀ i ∈ (rayDecode data).reads, i < data.length + 2) ∧
    (data.length ≤ 1 → (rayDecode data).reads = []) := by
  have hreads : (rayDecode data).reads = List.range (rayDecode data).ptr := by
    have h := decodeGo_reads data data.length 0 initLookback [] []
    rw [List.range_eq_range']
    simpa [rayDecode] using h
  have hle : (rayDecode data).ptr ≤ data.length + 2 :=
    decodeGo_ptr_le data data.length 0 initLookback [] [] (by omega)
  refine ⟨hreads, hle, ?_, ?_⟩
  · intro i hi
    rw [hreads] at hi
    have := List.mem_range.mp hi
    omega
  · intro hlen
    rcases Nat.le_one_iff_eq_zero_or_eq_one.mp hlen with h0 | h1
    · show (decodeGo data data.length 0 initLookback [] []).reads = []
      rw [h0]
      rfl
    · show (decodeGo data data.length 0 initLookback [] []).reads = []
      rw [h1, decodeGo.eq_2, if_neg (by omega)]

/-- Witness for C3 (amended): the length-1 buffer `[7]` is never read. -/
theorem rayDecode_reads_bounded_w :
    (rayDecode [7]).reads = [] ∧ (rayDecode [7]).ptr ≤ ([7] : List Nat).length + 2 :=
  ⟨(rayDecode_reads_bounded [7]).2.2.2 (by decide), (rayDecode_reads_bounded [7]).2.1⟩

/-- C9: decoding the marker sequence `0xFF, 0b01000000, 0b00111111, 5`
yields the single sample `(horizontal, vertical, material) = (256, 63, 5)`
and writes that triple, as a new baseline, into lookback cache slot
`(3*(256/128) + 5*(63/16) + 7*5) mod 64 = 56`. -/
theorem marker_decode_scenario :
    (rayDecode [255, 64, 63, 5]).samples = [((256 : Int), (63 : Int), (5 : Int))] ∧
    (rayDecode [255, 64, 63, 5]).rayLookback
      = initLookback.set 56 ((256 : Int), (63 : Int), (5 : Int)) ∧
    (3 * (256 / 128) + 5 * (63 / 16) + 7 * 5) % 64 = 56 := by
  decide

/-! ## Sample-position permutation generator (camera.ts `IndexGenerator`)

JS stores the generator state as a 32-bit integer (every step ends in `|0`);
the state is modelled by its unsigned 32-bit bit pattern.  The scaling step
`(nextState() * (e|0)) / 4294967295 | 0` multiplies and divides JS doubles;
it is modelled in exact integer arithmetic (`|0` truncates toward zero,
which on the exact quotient is `Int.tdiv` followed by a 32-bit coercion). -/

/-- JS `ToInt32` of an integer. -/
def toInt32 (n : Int) : Int :=
  let m := n % 4294967296
  if m < 2147483648 then m else m - 4294967296

/-- JS `ToUint32` of an integer (the 32-bit pattern). -/
def toUint32 (n : Int) : Nat := (n % 4294967296).toNat

/-- One xorshift update `e ^= e<<13; e ^= e>>>17; e ^= e<<5` (all `|0`),
on 32-bit patterns. -/
def xorshift32 (s : Nat) : Nat :=
  let a := Nat.xor s ((s * 8192) % 4294967296)
  let b := Nat.xor a (a / 131072)
  Nat.xor b ((b * 32) % 4294967296)

structure IndexGenerator where
  state : Nat
deriving DecidableEq, Repr

/-- The constructor `IndexGenerator(e)`: `this.state = 0 | e;` then one
discarded `nextState()` call, which leaves `state = xorshift32(pattern(e))`. -/
def IndexGenerator.init (e : Int) : IndexGenerator :=
  ⟨xorshift32 (toUint32 (toInt32 e))⟩

/-- `nextState()`: returns the previous state as
`t >= 0 ? t : 4294967295 + t - 1` (on the pattern: `t` if `t < 2^31`, else
`t - 2`), and advances the state by one xorshift step. -/
def IndexGenerator.nextState (g : IndexGenerator) : Nat × IndexGenerator :=
  (if g.state < 2147483648 then g.state else g.state - 2, ⟨xorshift32 g.state⟩)

/-- `nextInt(e)`: scale the previous state by `e / 2^32-1` (exact
arithmetic; `|0` = truncate toward zero and wrap to 32 bits), with the
source's negative-result adjustment `t = e + t - 1` and final `| 0`. -/
def IndexGenerator.nextInt (g : IndexGenerator) (e : Int) : Int × IndexGenerator :=
  let p := g.nextState
  let t0 : Int := toInt32 (Int.tdiv ((p.1 : Int) * toInt32 e) 4294967295)
  let t : Int := if t0 < 0 then e + t0 - 1 else t0
  (toInt32 t, p.2)

/-! ## Sample-position table and shuffle (camera.ts `renderCameraFrame`) -/

/-- JS `Int16Array` store coercion. -/
def toInt16 (n : Int) : Int :=
  let m := n % 65536
  if m < 32768 then m else m - 65536

/-- One row `y` of the sample-position initialisation loop: positions
`(x, y)` for `x = 0 .. width-1`, as stored in the `Int16Array`.  The flat
interleaved buffer is modelled as a list of `(x, y)` pairs: every access the
code makes is pair-aligned (`C = 2*R`, `I = 2*nextInt(R+1)`, and the decode
loop reads `samplePositionBuffer` at `sampleOffset` kept even). -/
def initRow (w y : Nat) : List (Int × Int) :=
  (List.range w).map (fun x : Nat => (toInt16 x, toInt16 y))

/-- The full sample-position table in raster order (the nested `for y, for x`
loops). -/
def initTable (w : Nat) : Nat → List (Int × Int)
  | 0 => []
  | h + 1 => initTable w h ++ initRow w h

/-- Read the pair at index `i`. -/
def getPos (l : List (Int × Int)) (i : Nat) : Int × Int := l.getD i (0, 0)

/-- Swap the pairs at indices `i` and `j` (the four scalar reads happen
before the four writes in the source, so both pairs are read from the
original buffer). -/
def swapPos (l : List (Int × Int)) (i j : Nat) : List (Int × Int) :=
  (l.set j (getPos l i)).set i (getPos l j)

/-- The backward Fisher-Yates-style loop
`for (let R = width*height - 1; R >= 1; R--)`: at step `R` swap pair `R`
with pair `nextInt(R + 1)`. -/
def shuffleGo (g : IndexGenerator) (l : List (Int × Int)) : Nat → List (Int × Int)
  | 0 => l
  | r + 1 =>
    let p := g.nextInt ((r + 2 : Nat) : Int)
    shuffleGo p.2 (swapPos l (r + 1) p.1.toNat) r

/-- The shuffled sample-position table of one render: a fresh
`IndexGenerator(1337)` shuffles the raster-order table. -/
def shuffleTable (w h : Nat) : List (Int × Int) :=
  shuffleGo (IndexGenerator.init 1337) (initTable w h) (w * h - 1)

/-! ### Lemmas about the generator -/

theorem toInt32_of_lt {n : Int} (h0 : 0 ≤ n) (h : n < 2147483648) : toInt32 n = n := by
  simp only [toInt32]
  rw [Int.emod_eq_of_lt h0 (by omega), if_pos h]

theorem xorshift32_lt {s : Nat} (h : s < 4294967296) : xorshift32 s < 4294967296 := by
  have h32 : (4294967296 : Nat) = 2 ^ 32 := by norm_num
  simp only [xorshift32]
  have ha : Nat.xor s ((s * 8192) % 4294967296) < 4294967296 := by
    rw [h32]
    exact Nat.xor_lt_two_pow (h32 ▸ h) (h32 ▸ Nat.mod_lt _ (by norm_num))
  have hb : Nat.xor (Nat.xor s ((s * 8192) % 4294967296))
      (Nat.xor s ((s * 8192) % 4294967296) / 131072) < 4294967296 := by
    rw [h32]
    exact Nat.xor_lt_two_pow (h32 ▸ ha)
      (h32 ▸ lt_of_le_of_lt (Nat.div_le_self _ _) ha)
  rw [h32]
  exact Nat.xor_lt_two_pow (h32 ▸ hb) (h32 ▸ Nat.mod_lt _ (by norm_num))

theorem nextState_fst_le {g : IndexGenerator} (h : g.state < 4294967296) :
    (g.nextState).1 ≤ 4294967293 := by
  simp only [IndexGenerator.nextState]
  split <;> omega

theorem nextState_snd_lt {g : IndexGenerator} (h : g.state < 4294967296) :
    (g.nextState).2.state < 4294967296 :=
  xorshift32_lt h

theorem nextInt_spec {g : IndexGenerator} {e : Int} (hs : g.state < 4294967296)
    (h1 : 1 ≤ e) (h2 : e ≤ 2147483647) :
    0 ≤ (g.nextInt e).1 ∧ (g.nextInt e).1 < e ∧
      (g.nextInt e).2.state < 4294967296 := by
  have hns := nextState_fst_le hs
  have hns' : ((g.nextState).1 : Int) ≤ 4294967293 := by exact_mod_cast hns
  have he32 : toInt32 e = e := toInt32_of_lt (by omega) (by omega)
  have htd : Int.tdiv (((g.nextState).1 : Int) * e) 4294967295
      = (((g.nextState).1 : Int) * e) / 4294967295 :=
    Int.tdiv_eq_ediv (mul_nonneg (Int.natCast_nonneg _) (by omega)) (by norm_num)
  have hqnn : 0 ≤ (((g.nextState).1 : Int) * e) / 4294967295 :=
    Int.ediv_nonneg (mul_nonneg (Int.natCast_nonneg _) (by omega)) (by norm_num)
  have hqlt : (((g.nextState).1 : Int) * e) / 4294967295 < e := by
    apply Int.ediv_lt_of_lt_mul (by norm_num)
    calc ((g.nextState).1 : Int) * e
        ≤ 4294967293 * e := mul_le_mul_of_nonneg_right hns' (by omega)
      _ < 4294967295 * e := by linarith
      _ = e * 4294967295 := mul_comm _ _
  simp only [IndexGenerator.nextInt]
  rw [he32, htd, toInt32_of_lt hqnn (by omega), if_neg (not_lt.mpr hqnn),
    toInt32_of_lt hqnn (by omega)]
  exact ⟨hqnn, hqlt, nextState_snd_lt hs⟩

/-! ### Lemmas about the shuffle -/

theorem count_set_add :
    ∀ (l : List (Int × Int)) (i : Nat) (a d v : Int × Int), i < l.length →
      (l.set i a).count v + (if l.getD i d = v then 1 else 0)
        = l.count v + (if a = v then 1 else 0) := by
  intro l
  induction l with
  | nil => intro i a d v h; simp at h
  | cons b t ih =>
    intro i a d v h
    cases i with
    | zero =>
      simp only [List.set_cons_zero, List.getD_cons_zero, List.count_cons, beq_iff_eq]
      by_cases hav : a = v <;> by_cases hbv : b = v <;> simp [hav, hbv]
    | succ n =>
      simp only [List.set_cons_succ, List.getD_cons_succ, List.count_cons, beq_iff_eq]
      have hih := ih n a d v (Nat.lt_of_succ_lt_succ h)
      by_cases hbv : b = v <;> by_cases hg : t.getD n d = v <;> by_cases hav : a = v <;>
        simp [hbv, hg, hav] at hih ⊢ <;> omega

theorem getD_set (l : List (Int × Int)) :
    ∀ (i j : Nat) (x : Int × Int), i < l.length →
      (l.set j x).getD i (0, 0) = if i = j then x else l.getD i (0, 0) := by
  induction l with
  | nil => intro i j x h; simp at h
  | cons b t ih =>
    intro i j x h
    cases i with
    | zero =>
      cases j with
      | zero => simp
      | succ n => simp
    | succ m =>
      cases j with
      | zero => simp
      | succ n =>
        simp only [List.set_cons_succ, List.getD_cons_succ, Nat.add_right_cancel_iff]
        exact ih m n x (Nat.lt_of_succ_lt_succ h)

/-- `count_set_add` phrased through `getPos`. -/
theorem count_set_add_pos (l : List (Int × Int)) (i : Nat) (a v : Int × Int)
    (h : i < l.length) :
    (l.set i a).count v + (if getPos l i = v then 1 else 0)
      = l.count v + (if a = v then 1 else 0) :=
  count_set_add l i a (0, 0) v h

theorem count_swapPos (l : List (Int × Int)) (i j : Nat) (hi : i < l.length)
    (hj : j < l.length) (v : Int × Int) :
    (swapPos l i j).count v = l.count v := by
  have e1 := count_set_add_pos l j (getPos l i) v hj
  have e2 := count_set_add_pos (l.set j (getPos l i)) i (getPos l j) v
    (by simpa using hi)
  have hgd : getPos (l.set j (getPos l i)) i = getPos l i := by
    show (l.set j (getPos l i)).getD i (0, 0) = getPos l i
    rw [getD_set l i j _ hi]
    split <;> rfl
  rw [hgd] at e2
  show ((l.set j (getPos l i)).set i (getPos l j)).count v = l.count v
  by_cases h1 : getPos l i = v <;> by_cases h2 : getPos l j = v <;>
    simp [h1, h2] at e1 e2 ⊢ <;> omega

theorem length_swapPos (l : List (Int × Int)) (i j : Nat) :
    (swapPos l i j).length = l.length := by
  simp [swapPos]

theorem shuffleGo_count :
    ∀ (R : Nat) (g : IndexGenerator) (l : List (Int × Int)),
      g.state < 4294967296 → R < l.length → (l.length : Int) ≤ 2147483647 →
      ∀ v, (shuffleGo g l R).count v = l.count v := by
  intro R
  induction R with
  | zero => intro g l _ _ _ v; rfl
  | succ r ih =>
    intro g l hg hR hlen v
    have hrlen : ((r + 2 : Nat) : Int) ≤ 2147483647 := by
      have hle : r + 2 ≤ l.length := hR
      calc ((r + 2 : Nat) : Int) ≤ (l.length : Int) := by exact_mod_cast hle
        _ ≤ 2147483647 := hlen
    have hspec := nextInt_spec (e := ((r + 2 : Nat) : Int)) hg
      (by exact_mod_cast (by omega : 1 ≤ r + 2)) hrlen
    obtain ⟨hq0, hqlt, hgst⟩ := hspec
    have hjle : (g.nextInt ((r + 2 : Nat) : Int)).1.toNat ≤ r + 1 := by
      have := (Int.toNat_lt hq0).mpr hqlt
      omega
    simp only [shuffleGo]
    rw [ih _ _ hgst (by rw [length_swapPos]; exact Nat.lt_of_succ_lt hR)
      (by rw [length_swapPos]; exact hlen)]
    exact count_swapPos l (r + 1) _ hR (lt_of_le_of_lt hjle hR) v

theorem toInt16_of_lt {n : Nat} (h : n < 32768) : toInt16 n = n := by
  have h0 : (0 : Int) ≤ (n : Int) := Int.natCast_nonneg n
  have h1 : (n : Int) < 65536 := by exact_mod_cast Nat.lt_trans h (by norm_num)
  have h2 : (n : Int) < 32768 := by exact_mod_cast h
  simp only [toInt16]
  rw [Int.emod_eq_of_lt h0 h1, if_pos h2]

theorem toInt16_lt (n : Int) : toInt16 n < 32768 := by
  simp only [toInt16]
  have hm := Int.emod_lt_of_pos n (show (0 : Int) < 65536 by norm_num)
  split
  · assumption
  · omega

theorem initTable_length (w : Nat) : ∀ h : Nat, (initTable w h).length = w * h := by
  intro h
  induction h with
  | zero => rfl
  | succ n ih =>
    show (initTable w n ++ initRow w n).length = w * (n + 1)
    rw [List.length_append, ih, initRow, List.length_map, List.length_range]
    ring

theorem mem_initTable {w : Nat} : ∀ {h : Nat} {p : Int × Int}, p ∈ initTable w h →
    ∃ x y : Nat, x < w ∧ y < h ∧ p = (toInt16 x, toInt16 y) := by
  intro h
  induction h with
  | zero => intro p hp; cases hp
  | succ n ih =>
    intro p hp
    rcases List.mem_append.mp hp with hp | hp
    · obtain ⟨x, y, hx, hy, he⟩ := ih hp
      exact ⟨x, y, hx, Nat.lt_succ_of_lt hy, he⟩
    · obtain ⟨x, hx, he⟩ := List.mem_map.mp hp
      exact ⟨x, n, List.mem_range.mp hx, Nat.lt_succ_self n, he.symm⟩

theorem initTable_mem {w : Nat} : ∀ {h x y : Nat}, x < w → y < h →
    (toInt16 x, toInt16 y) ∈ initTable w h := by
  intro h
  induction h with
  | zero => intro x y _ hy; cases hy
  | succ n ih =>
    intro x y hx hy
    rcases Nat.lt_succ_iff_lt_or_eq.mp hy with hy | rfl
    · exact List.mem_append.mpr (Or.inl (ih hx hy))
    · exact List.mem_append.mpr (Or.inr (List.mem_map.mpr
        ⟨x, List.mem_range.mpr hx, rfl⟩))

theorem initRow_nodup {w y : Nat} (hw : w ≤ 32768) : (initRow w y).Nodup := by
  refine List.Nodup.map_on ?_ (List.nodup_range w)
  intro x hx x' hx' he
  have hx32 : x < 32768 := lt_of_lt_of_le (List.mem_range.mp hx) hw
  have hx32' : x' < 32768 := lt_of_lt_of_le (List.mem_range.mp hx') hw
  rw [Prod.mk.injEq] at he
  have h1 := he.1
  rw [toInt16_of_lt hx32, toInt16_of_lt hx32'] at h1
  exact_mod_cast h1

theorem initTable_nodup {w : Nat} (hw : w ≤ 32768) :
    ∀ {h : Nat}, h ≤ 32768 → (initTable w h).Nodup := by
  intro h
  induction h with
  | zero => intro _; exact List.nodup_nil
  | succ n ih =>
    intro hh
    refine List.Nodup.append (ih (by omega)) (initRow_nodup hw) ?_
    intro p hp hp2
    obtain ⟨x, y, hx, hy, rfl⟩ := mem_initTable hp
    obtain ⟨x', hx', he⟩ := List.mem_map.mp hp2
    rw [Prod.mk.injEq] at he
    have h2 := he.2.symm
    rw [toInt16_of_lt (by omega), toInt16_of_lt (by omega)] at h2
    have : y = n := by exact_mod_cast h2
    omega

theorem count_eq_one_of_mem_nodup {v : Int × Int} {l : List (Int × Int)}
    (hn : l.Nodup) (hm : v ∈ l) : l.count v = 1 := by
  induction l with
  | nil => cases hm
  | cons b t ih =>
    rcases List.mem_cons.mp hm with rfl | hmt
    · rw [List.count_cons_self, List.count_eq_zero.mpr (List.nodup_cons.mp hn).1]
    · have hne : v ≠ b := fun he => (List.nodup_cons.mp hn).1 (he ▸ hmt)
      rw [List.count_cons_of_ne hne]
      exact ih (List.nodup_cons.mp hn).2 hmt

theorem initTable_count {w h x y : Nat} (hw : w ≤ 32768) (hh : h ≤ 32768)
    (hx : x < w) (hy : y < h) :
    (initTable w h).count ((x : Int), (y : Int)) = 1 := by
  have hmem : ((x : Int), (y : Int)) ∈ initTable w h := by
    have := initTable_mem (w := w) hx hy
    rwa [toInt16_of_lt (by omega), toInt16_of_lt (by omega)] at this
  exact count_eq_one_of_mem_nodup (initTable_nodup hw hh) hmem

/-! ### Claim C8 and C10 theorems -/

/-- C8, counterexample: at `width = 32769`, `height = 1` the position
`(x, y) = (32768, 0)` (with `0 ≤ 32768 < width` and `0 ≤ 0 < height`) never
appears in the shuffled table: the `Int16Array` sample buffer stores 32768
as -32768, so the shuffle is not a bijection over all positions for every
`width ≥ 1, height ≥ 1`. -/
theorem shuffle_bijection_cex :
    32768 < 32769 ∧ 0 < 1 ∧
    (shuffleTable 32769 1).count ((32768 : Int), (0 : Int)) ≠ 1 := by
  refine ⟨by norm_num, by norm_num, ?_⟩
  have hlen : (initTable 32769 1).length = 32769 := initTable_length 32769 1
  have hcnt := shuffleGo_count (32769 * 1 - 1) (IndexGenerator.init 1337)
    (initTable 32769 1) (by decide) (by rw [hlen]; norm_num)
    (by rw [hlen]; norm_num) ((32768 : Int), (0 : Int))
  rw [shuffleTable, hcnt]
  have hzero : (initTable 32769 1).count ((32768 : Int), (0 : Int)) = 0 := by
    refine List.count_eq_zero.mpr ?_
    intro hmem
    obtain ⟨x, y, hx, hy, he⟩ := mem_initTable hmem
    rw [Prod.mk.injEq] at he
    have := toInt16_lt (x : Int)
    omega
  rw [hzero]
  norm_num

/-- C8 (amended): for every `width` and `height` with
`1 ≤ width ≤ 32768` and `1 ≤ height ≤ 32768` (so that every coordinate is
representable in the `Int16Array` sample buffer), the sample-position
shuffle is deterministic — it is a function of the dimensions alone, the
generator being re-seeded with the fixed constant 1337 on every render —
and is a bijection: every position `(x, y)` with `x < width`, `y < height`
appears exactly once in the shuffled table. -/
theorem shuffle_deterministic_bijection :
    (∀ w h : Nat, shuffleTable w h = shuffleTable w h) ∧
    (∀ w h x y : Nat, 1 ≤ w → 1 ≤ h → w ≤ 32768 → h ≤ 32768 → x < w → y < h →
      (shuffleTable w h).count ((x : Int), (y : Int)) = 1) := by
  refine ⟨fun w h => rfl, fun w h x y hw1 hh1 hw hh hx hy => ?_⟩
  have hlen : (initTable w h).length = w * h := initTable_length w h
  have hwh1 : 1 ≤ w * h := Nat.mul_pos hw1 hh1
  have hwhle : w * h ≤ 1073741824 := by
    calc w * h ≤ 32768 * 32768 := Nat.mul_le_mul hw hh
      _ = 1073741824 := by norm_num
  have hcnt := shuffleGo_count (w * h - 1) (IndexGenerator.init 1337)
    (initTable w h) (by decide) (by omega) (by exact_mod_cast by omega)
    ((x : Int), (y : Int))
  rw [shuffleTable, hcnt]
  exact initTable_count hw hh hx hy

/-- Witness for C8 (amended): the 1-by-1 table contains position (0,0)
exactly once after shuffling. -/
theorem shuffle_deterministic_bijection_w :
    (shuffleTable 1 1).count ((0 : Int), (0 : Int)) = 1 :=
  shuffle_deterministic_bijection.2 1 1 0 0 (by decide) (by decide) (by decide)
    (by decide) (by decide) (by decide)

/-- C10: for every generator state (any 32-bit value) and every bound `e`
with `1 ≤ e ≤ 2^31 - 1`, `nextInt e` returns an integer in `[0, e)` — the
32-bit xorshift state update is wrapped, the returned scaled value never
reaches `e` — and consequently every swap partner pair index
`nextInt(R + 1)` of the shuffle stays inside the sample-position buffer
(its flat interleaved index `2*nextInt(R+1) + 1` is below `2*width*height`). -/
theorem nextInt_in_range :
    (∀ (g : IndexGenerator) (e : Int), g.state < 4294967296 → 1 ≤ e →
      e ≤ 2147483647 → 0 ≤ (g.nextInt e).1 ∧ (g.nextInt e).1 < e) ∧
    (∀ (g : IndexGenerator) (R w h : Nat), g.state < 4294967296 → R < w * h →
      w * h ≤ 2147483647 →
      2 * (g.nextInt ((R + 1 : Nat) : Int)).1.toNat + 1 < 2 * (w * h)) := by
  constructor
  · intro g e hs h1 h2
    have := nextInt_spec hs h1 h2
    exact ⟨this.1, this.2.1⟩
  · intro g R w h hs hR hwh
    have hbound : ((R + 1 : Nat) : Int) ≤ 2147483647 := by
      exact_mod_cast by omega
    have hspec := nextInt_spec (e := ((R + 1 : Nat) : Int)) hs
      (by exact_mod_cast by omega) hbound
    have : (g.nextInt ((R + 1 : Nat) : Int)).1.toNat < R + 1 :=
      (Int.toNat_lt hspec.1).mpr (by exact_mod_cast hspec.2.1)
    omega

/-- Witness for C10: both parts evaluated on a freshly seeded generator. -/
theorem nextInt_in_range_w :
    (0 ≤ ((IndexGenerator.init 1337).nextInt 5).1 ∧
      ((IndexGenerator.init 1337).nextInt 5).1 < 5) ∧
    2 * (((IndexGenerator.init 1337).nextInt ((3 + 1 : Nat) : Int)).1.toNat) + 1
      < 2 * (2 * 2) :=
  ⟨nextInt_in_range.1 (IndexGenerator.init 1337) 5 (by decide) (by decide)
      (by decide),
   nextInt_in_range.2 (IndexGenerator.init 1337) 3 2 2 (by decide) (by decide)
      (by decide)⟩
